import Mathlib

/-!
Verification of the `connect-traces` plugin core (`plugins/connect.py`).

The embedding below translates the geometric core of the plugin:

* `Point` is a pair of integer coordinates (KiCad integer units).
* `Track` mirrors `TrackProxy`: a `start` point, an `end` point and an
  opaque `layer` tag.  The Python proxy mutates a wrapped board object; here
  a mutation is modelled by returning the updated `Track` value.
* Python computes slopes with floating-point division and uses `INF` for a
  vertical line.  The embedding uses exact rationals (`ℚ`) for the slope and
  `Option ℚ` with `none` standing for `INF`.
* Python's `int(x)` cast on a float truncates toward zero; `ratTrunc` is the
  corresponding operation on `ℚ`.
* `raise ConnectExtensionError ...` is modelled with `Except Err`; the
  distinct error sites get distinct `Err` constructors.
-/

/-- `Point = Tuple[int, int]` from the source. -/
abbrev Point : Type := ℤ × ℤ

/-- The state of a track that the plugin reads and rewrites: `TrackProxy`
exposes `start`, `end` (points) and a read-only `layer`. -/
structure Track where
  start : Point
  «end» : Point
  layer : ℤ
deriving DecidableEq

/-- `TrackProxy.slope`: `delta_y / delta_x`, or `INF` (here `none`) when
`delta_x == 0`. -/
def Track.slope (t : Track) : Option ℚ :=
  let delta_x := t.«end».1 - t.start.1
  let delta_y := t.«end».2 - t.start.2
  if delta_x = 0 then none
  else some ((delta_y : ℚ) / (delta_x : ℚ))

/-- The closed union of the three line classes `Horizontal { y }`,
`Vertical { x }` and `Slanted { m, n }` from the source. -/
inductive Line where
  | horizontal (y : ℤ)
  | vertical (x : ℤ)
  | slanted (m n : ℚ)
deriving DecidableEq

/-- `isinstance(l, Horizontal)` from the dispatch in `find_intersection`. -/
def Line.isHorizontal : Line → Bool
  | .horizontal _ => true
  | _ => false

/-- `isinstance(l, Vertical)`. -/
def Line.isVertical : Line → Bool
  | .vertical _ => true
  | _ => false

/-- `isinstance(l, Slanted)`. -/
def Line.isSlanted : Line → Bool
  | .slanted _ _ => true
  | _ => false

/-- Attribute `y` of a `Horizontal` line (only read behind an
`isHorizontal` guard, like the Python attribute access). -/
def Line.y : Line → ℤ
  | .horizontal y => y
  | _ => 0

/-- Attribute `x` of a `Vertical` line. -/
def Line.x : Line → ℤ
  | .vertical x => x
  | _ => 0

/-- Attribute `m` (slope) of a `Slanted` line. -/
def Line.m : Line → ℚ
  | .slanted m _ => m
  | _ => 0

/-- Attribute `n` (intercept) of a `Slanted` line. -/
def Line.n : Line → ℚ
  | .slanted _ n => n
  | _ => 0

/-- `line_factory`: dispatch on the slope.  The source tests `slope == 0`
first and `slope == INF` second; since `INF` (`none` here) never equals `0`
the two tests are disjoint and matching on the option first is equivalent.
`Horizontal` stores `track.start.y`, `Vertical` stores `track.start.x`, and
`Slanted` stores `m = track.slope`, `n = start.y - m * start.x`. -/
def line_factory (t : Track) : Line :=
  match t.slope with
  | none => Line.vertical t.start.1
  | some s =>
    if s = 0 then Line.horizontal t.start.2
    else Line.slanted s ((t.start.2 : ℚ) - s * (t.start.1 : ℚ))

/-- `distance`: squared Euclidean distance between two points
(`(b[0]-a[0])**2 + (b[1]-a[1])**2`; no square root in the source). -/
def distance (a b : Point) : ℤ :=
  (b.1 - a.1) ^ 2 + (b.2 - a.2) ^ 2

/-- The `_colinear` helper nested in `find_intersection`: of track A's two
endpoints, return `a.start` when it is strictly closer to `b.start` than
`a.end` is, else `a.end`. -/
def colinearPoint (a b : Track) : Point :=
  if distance b.start a.start < distance b.start a.«end» then a.start
  else a.«end»

/-- The error sites of the plugin core, one constructor per distinct
`ConnectExtensionError` message. -/
inductive Err where
  | wrongCount
  | differentLayers
  | parallel
  | unhandled
deriving DecidableEq

/-- Truncation toward zero, the behaviour of Python's `int()` on a float. -/
def ratTrunc (q : ℚ) : ℤ :=
  if 0 ≤ q then ⌊q⌋ else ⌈q⌉

/-- `return int(x), int(y)` at the very end of `find_intersection`: the one
place where the floating-point coordinates are cast to integers. -/
def mkPoint (x y : ℚ) : Except Err Point :=
  Except.ok (ratTrunc x, ratTrunc y)

/-- The `isinstance` dispatch chain of `find_intersection`, with the lines
already computed (the source computes each line once).  The final `else`
branch is the "Unhandled combination" error. -/
def dispatch (a b : Track) (la lb : Line) : Except Err Point :=
  if la.isHorizontal && lb.isHorizontal then
    if la.y = lb.y then Except.ok (colinearPoint a b)
    else Except.error Err.parallel
  else if la.isHorizontal && lb.isVertical then
    mkPoint (lb.x : ℚ) (la.y : ℚ)
  else if la.isHorizontal && lb.isSlanted then
    let y : ℚ := (la.y : ℚ)
    mkPoint ((y - lb.n) / lb.m) y
  else if la.isVertical && lb.isHorizontal then
    mkPoint (la.x : ℚ) (lb.y : ℚ)
  else if la.isVertical && lb.isVertical then
    if la.x = lb.x then Except.ok (colinearPoint a b)
    else Except.error Err.parallel
  else if la.isVertical && lb.isSlanted then
    let x : ℚ := (la.x : ℚ)
    mkPoint x (lb.m * x + lb.n)
  else if la.isSlanted && lb.isHorizontal then
    let y : ℚ := (lb.y : ℚ)
    mkPoint ((y - la.n) / la.m) y
  else if la.isSlanted && lb.isVertical then
    let x : ℚ := (lb.x : ℚ)
    mkPoint x (la.m * x + la.n)
  else if la.isSlanted && lb.isSlanted then
    if la.m = lb.m then
      if la.n = lb.n then Except.ok (colinearPoint a b)
      else Except.error Err.parallel
    else
      let x := (lb.n - la.n) / (la.m - lb.m)
      mkPoint x (la.m * x + la.n)
  else Except.error Err.unhandled

/-- `find_intersection`: classify both tracks and dispatch on the pair. -/
def find_intersection (a b : Track) : Except Err Point :=
  dispatch a b (line_factory a) (line_factory b)

/-- `extend_to`: overwrite the endpoint whose squared distance to `point`
is smaller; the `else` branch (which the tie falls into) overwrites `end`. -/
def extend_to (t : Track) (point : Point) : Track :=
  if distance point t.start < distance point t.«end» then
    { t with start := point }
  else
    { t with «end» := point }

/-- `ConnectTraces._run` on the list of selected tracks: count check, layer
check, intersection, then both extensions.  A raised error leaves the board
state unchanged, which the value-passing model renders by returning the
input list next to the error. -/
def run (tracks : List Track) : List Track × Option Err :=
  match tracks with
  | [a, b] =>
    if a.layer ≠ b.layer then ([a, b], some Err.differentLayers)
    else
      match find_intersection a b with
      | Except.error e => ([a, b], some e)
      | Except.ok p => ([extend_to a p, extend_to b p], none)
  | other => (other, some Err.wrongCount)

/-- The outcome of the intersection solver as the specification words it:
a unique point (kept in exact coordinates here), colinear lines, or
distinct parallel lines. -/
inductive SpecOutcome where
  | point (x y : ℚ)
  | colinear
  | parallel
deriving DecidableEq

/-- The specification's orientation-pair rule table (§4.2 of the spec),
written from the spec's words, to be compared with `find_intersection`. -/
def spec_table : Line → Line → SpecOutcome
  | .horizontal ya, .horizontal yb =>
    if ya = yb then .colinear else .parallel
  | .horizontal ya, .vertical xb => .point (xb : ℚ) (ya : ℚ)
  | .horizontal ya, .slanted m n => .point (((ya : ℚ) - n) / m) (ya : ℚ)
  | .vertical xa, .horizontal yb => .point (xa : ℚ) (yb : ℚ)
  | .vertical xa, .vertical xb =>
    if xa = xb then .colinear else .parallel
  | .vertical xa, .slanted m n => .point (xa : ℚ) (m * (xa : ℚ) + n)
  | .slanted m n, .horizontal yb => .point (((yb : ℚ) - n) / m) (yb : ℚ)
  | .slanted m n, .vertical xb => .point (xb : ℚ) (m * (xb : ℚ) + n)
  | .slanted m1 n1, .slanted m2 n2 =>
    if m1 = m2 then
      if n1 = n2 then .colinear else .parallel
    else
      .point ((n2 - n1) / (m1 - m2)) (m1 * ((n2 - n1) / (m1 - m2)) + n1)

/-- The code's colinearity condition: both lines are the same infinite
line (equal `y`, equal `x`, or equal slope and intercept). -/
def isColinear : Line → Line → Bool
  | .horizontal ya, .horizontal yb => decide (ya = yb)
  | .vertical xa, .vertical xb => decide (xa = xb)
  | .slanted m1 n1, .slanted m2 n2 => decide (m1 = m2) && decide (n1 = n2)
  | _, _ => false

/-- Membership of an (exact, rational) point on a classified line. -/
def onLine : Line → ℚ → ℚ → Prop
  | .horizontal y0, _, y => y = (y0 : ℚ)
  | .vertical x0, x, _ => x = (x0 : ℚ)
  | .slanted m n, x, y => y = m * x + n

/-- `find_intersection` computed branch by branch against the rule table. -/
theorem find_intersection_table (a b : Track) :
    find_intersection a b =
      match spec_table (line_factory a) (line_factory b) with
      | SpecOutcome.point x y => Except.ok (ratTrunc x, ratTrunc y)
      | SpecOutcome.colinear => Except.ok (colinearPoint a b)
      | SpecOutcome.parallel => Except.error Err.parallel := by
  unfold find_intersection
  cases ha : line_factory a <;> cases hb : line_factory b <;>
    simp only [dispatch, spec_table, mkPoint, Line.isHorizontal, Line.isVertical,
      Line.isSlanted, Line.y, Line.x, Line.m, Line.n, Bool.and_self, Bool.true_and,
      Bool.false_and, Bool.and_false, Bool.and_true, if_true, if_false,
      Bool.false_eq_true] <;>
    split_ifs <;> rfl

/-- Corollary of the table: a `point` row yields the truncated point. -/
theorem table_point {a b : Track} {x y : ℚ}
    (h : spec_table (line_factory a) (line_factory b) = SpecOutcome.point x y) :
    find_intersection a b = Except.ok (ratTrunc x, ratTrunc y) := by
  rw [find_intersection_table a b, h]

/-- Corollary of the table: a `colinear` row yields the `_colinear` point. -/
theorem table_colinear {a b : Track}
    (h : spec_table (line_factory a) (line_factory b) = SpecOutcome.colinear) :
    find_intersection a b = Except.ok (colinearPoint a b) := by
  rw [find_intersection_table a b, h]

/-- Corollary of the table: a `parallel` row raises the parallel error. -/
theorem table_parallel {a b : Track}
    (h : spec_table (line_factory a) (line_factory b) = SpecOutcome.parallel) :
    find_intersection a b = Except.error Err.parallel := by
  rw [find_intersection_table a b, h]

/-- Squared distances are nonnegative. -/
theorem distance_nonneg (a b : Point) : 0 ≤ distance a b :=
  add_nonneg (sq_nonneg _) (sq_nonneg _)

/-- The squared distance from a point to itself is zero. -/
theorem distance_self (a : Point) : distance a a = 0 := by
  simp [distance]

/-- A zero squared distance forces the two points to coincide. -/
theorem distance_eq_zero {a b : Point} (h : distance a b = 0) : a = b := by
  unfold distance at h
  have h1 : (b.1 - a.1) ^ 2 = 0 :=
    le_antisymm (by nlinarith [sq_nonneg (b.2 - a.2)]) (sq_nonneg _)
  have h2 : (b.2 - a.2) ^ 2 = 0 :=
    le_antisymm (by nlinarith [sq_nonneg (b.1 - a.1)]) (sq_nonneg _)
  have e1 : b.1 = a.1 := by have := sq_eq_zero_iff.mp h1; linarith
  have e2 : b.2 = a.2 := by have := sq_eq_zero_iff.mp h2; linarith
  exact Prod.ext e1.symm e2.symm

/-- C2: for every segment with `start ≠ end`, a zero `delta_x` classifies as
`Vertical` at `start.x`; a nonzero `delta_x` with zero `delta_y` classifies
as `Horizontal` at `start.y`; otherwise the segment classifies as `Slanted`
with slope `delta_y / delta_x` and intercept `start.y - slope * start.x`.
The classifier is a total function. -/
theorem line_factory_classification (t : Track) (h : t.start ≠ t.«end») :
    (t.«end».1 - t.start.1 = 0 → line_factory t = Line.vertical t.start.1) ∧
    (t.«end».1 - t.start.1 ≠ 0 → t.«end».2 - t.start.2 = 0 →
      line_factory t = Line.horizontal t.start.2) ∧
    (t.«end».1 - t.start.1 ≠ 0 → t.«end».2 - t.start.2 ≠ 0 →
      line_factory t =
        Line.slanted
          (((t.«end».2 - t.start.2 : ℤ) : ℚ) / ((t.«end».1 - t.start.1 : ℤ) : ℚ))
          ((t.start.2 : ℚ) -
            ((t.«end».2 - t.start.2 : ℤ) : ℚ) / ((t.«end».1 - t.start.1 : ℤ) : ℚ) *
              (t.start.1 : ℚ))) := by
  refine ⟨fun hdx => ?_, fun hdx hdy => ?_, fun hdx hdy => ?_⟩
  · simp [line_factory, Track.slope, hdx]
  · simp [line_factory, Track.slope, hdx, hdy]
  · have hs : ((t.«end».2 - t.start.2 : ℤ) : ℚ) / ((t.«end».1 - t.start.1 : ℤ) : ℚ) ≠ 0 :=
      div_ne_zero (by exact_mod_cast hdy) (by exact_mod_cast hdx)
    simp [line_factory, Track.slope, hdx, hs]
    exact ⟨fun h0 => hdy (by exact_mod_cast h0), fun h0 => hdx (by exact_mod_cast h0)⟩

theorem line_factory_classification_witness :
    line_factory ⟨(0, 0), (0, 5), 0⟩ = Line.vertical 0 :=
  (line_factory_classification ⟨(0, 0), (0, 5), 0⟩ (by decide)).1 (by decide)

/-- C7: a point already equal to one of the segment's endpoints leaves the
segment unchanged under `extend_to`. -/
theorem extend_to_noop (t : Track) (p : Point) (h : p = t.start ∨ p = t.«end») :
    extend_to t p = t := by
  unfold extend_to
  rcases h with h | h
  · split_ifs with hlt
    · rw [h]
    · have h2 : distance p t.start = 0 := by rw [h, distance_self]
      have h0 : distance p t.«end» = 0 := by
        have h1 := distance_nonneg p t.«end»
        rw [h2] at hlt
        omega
      rw [distance_eq_zero h0]
  · have hnlt : ¬ distance p t.start < distance p t.«end» := by
      have h2 : distance p t.«end» = 0 := by rw [h, distance_self]
      have h1 := distance_nonneg p t.start
      omega
    rw [if_neg hnlt, h]

theorem extend_to_noop_witness :
    extend_to ⟨(0, 0), (2, 2), 0⟩ (0, 0) = ⟨(0, 0), (2, 2), 0⟩ :=
  extend_to_noop ⟨(0, 0), (2, 2), 0⟩ (0, 0) (Or.inl rfl)

/-- C3 counterexample: at an exact tie of squared distances the code takes
the `else` branch and overwrites `end`, leaving `start` in place, so the
claimed tie-breaking toward `start` fails on `(0,0)-(2,0)` with target
`(1,0)`. -/
theorem extend_to_tie_cex :
    distance ((1, 0) : Point) ((0, 0) : Point) =
        distance ((1, 0) : Point) ((2, 0) : Point) ∧
      extend_to ⟨(0, 0), (2, 0), 0⟩ (1, 0) = ⟨(0, 0), (1, 0), 0⟩ := by
  decide

/-- C3 (amended): `extend_to` overwrites `start` exactly when `start` is
strictly closer to the point; otherwise — including the tie — it overwrites
`end`; the other endpoint is left unchanged in all cases. -/
theorem extend_to_moves_closer_endpoint (t : Track) (p : Point) :
    (distance p t.start < distance p t.«end» →
      extend_to t p = { t with start := p }) ∧
    (distance p t.«end» ≤ distance p t.start →
      extend_to t p = { t with «end» := p }) := by
  constructor
  · intro h
    unfold extend_to
    rw [if_pos h]
  · intro h
    unfold extend_to
    rw [if_neg (not_lt.mpr h)]

theorem extend_to_moves_closer_endpoint_witness :
    extend_to ⟨(0, 0), (4, 0), 0⟩ (1, 0) = ⟨(1, 0), (4, 0), 0⟩ :=
  (extend_to_moves_closer_endpoint ⟨(0, 0), (4, 0), 0⟩ (1, 0)).1 (by decide)

/-- C1: for every pair of classified lines, `find_intersection` follows the
orientation-pair rule table: each `point` row of the table produces exactly
that point (truncated once at the end), an equal-parameter pair of lines of
the same orientation takes the colinear path, and a distinct parallel pair
raises the parallel error. -/
theorem find_intersection_follows_rule_table (a b : Track) :
    match spec_table (line_factory a) (line_factory b) with
    | SpecOutcome.point x y => find_intersection a b = Except.ok (ratTrunc x, ratTrunc y)
    | SpecOutcome.colinear => find_intersection a b = Except.ok (colinearPoint a b)
    | SpecOutcome.parallel => find_intersection a b = Except.error Err.parallel := by
  cases h : spec_table (line_factory a) (line_factory b) with
  | point x y => exact table_point h
  | colinear => exact table_colinear h
  | parallel => exact table_parallel h

/-- C10: the final `else` branch of the dispatch (the "Unhandled
combination" error, `Err.unhandled`) is unreachable: the classifier always
yields one of the three line classes, so one of the nine arms matches, and
every call returns either an `ok` point or the parallel error — never
`Err.unhandled`. -/
theorem unhandled_branch_unreachable (a b : Track) :
    (∃ p, find_intersection a b = Except.ok p) ∨
      find_intersection a b = Except.error Err.parallel := by
  rw [find_intersection_table a b]
  cases spec_table (line_factory a) (line_factory b) with
  | point x y => exact Or.inl ⟨_, rfl⟩
  | colinear => exact Or.inl ⟨_, rfl⟩
  | parallel => exact Or.inr rfl

/-- C4: two distinct parallel lines (a parallel row of the rule table, i.e.
same orientation with different constant, or equal slanted slopes with
different intercepts) make the run fail with the parallel error, and the
returned state is exactly the two input segments, unmutated. -/
theorem parallel_fails_without_mutation (a b : Track) (hl : a.layer = b.layer)
    (hp : spec_table (line_factory a) (line_factory b) = SpecOutcome.parallel) :
    run [a, b] = ([a, b], some Err.parallel) := by
  simp [run, hl, table_parallel hp]

theorem parallel_fails_without_mutation_witness :
    run [⟨(0, 0), (10, 0), 0⟩, ⟨(0, 5), (10, 5), 0⟩] =
      ([⟨(0, 0), (10, 0), 0⟩, ⟨(0, 5), (10, 5), 0⟩], some Err.parallel) :=
  parallel_fails_without_mutation ⟨(0, 0), (10, 0), 0⟩ ⟨(0, 5), (10, 5), 0⟩
    rfl (by norm_num [spec_table, line_factory, Track.slope])

/-- C5: a selection that is not exactly two segments, or two segments on
different layers, fails with the corresponding precondition error and the
returned state is exactly the input, unmutated; no intersection geometry
contributes to the result. -/
theorem precondition_fails_without_mutation (tracks : List Track)
    (h : tracks.length ≠ 2 ∨ ∃ a b, tracks = [a, b] ∧ a.layer ≠ b.layer) :
    (run tracks).1 = tracks ∧
      ((run tracks).2 = some Err.wrongCount ∨
        (run tracks).2 = some Err.differentLayers) := by
  rcases h with h | ⟨a, b, rfl, hab⟩
  · match tracks with
    | [] => exact ⟨rfl, Or.inl rfl⟩
    | [a] => exact ⟨rfl, Or.inl rfl⟩
    | [a, b] => exact absurd rfl h
    | a :: b :: c :: rest => exact ⟨rfl, Or.inl rfl⟩
  · refine ⟨?_, Or.inr ?_⟩ <;> simp [run, hab]

theorem precondition_fails_without_mutation_witness :
    (run [⟨(0, 0), (1, 1), 0⟩]).1 = [⟨(0, 0), (1, 1), 0⟩] ∧
      ((run [⟨(0, 0), (1, 1), 0⟩]).2 = some Err.wrongCount ∨
        (run [⟨(0, 0), (1, 1), 0⟩]).2 = some Err.differentLayers) :=
  precondition_fails_without_mutation [⟨(0, 0), (1, 1), 0⟩] (Or.inl (by decide))

/-- C6: when the two lines are colinear (a colinear row of the rule table),
the shared point is one of segment A's endpoints — `start` when it is
strictly nearer (by squared distance) to segment B's `start`, `end` when
`end` is strictly nearer — and the run extends both segments to that same
point. -/
theorem colinear_merges_to_nearest_endpoint (a b : Track) (hl : a.layer = b.layer)
    (hc : spec_table (line_factory a) (line_factory b) = SpecOutcome.colinear) :
    (colinearPoint a b = a.start ∨ colinearPoint a b = a.«end») ∧
    (distance b.start a.start < distance b.start a.«end» →
      colinearPoint a b = a.start) ∧
    (distance b.start a.«end» < distance b.start a.start →
      colinearPoint a b = a.«end») ∧
    run [a, b] =
      ([extend_to a (colinearPoint a b), extend_to b (colinearPoint a b)], none) := by
  refine ⟨?_, fun h => ?_, fun h => ?_, ?_⟩
  · unfold colinearPoint
    split_ifs <;> simp
  · unfold colinearPoint
    rw [if_pos h]
  · unfold colinearPoint
    rw [if_neg (lt_asymm h)]
  · simp [run, hl, table_colinear hc]

theorem colinear_merges_to_nearest_endpoint_witness :
    run [⟨(0, 0), (5, 0), 0⟩, ⟨(8, 0), (12, 0), 0⟩] =
      ([⟨(0, 0), (5, 0), 0⟩, ⟨(5, 0), (12, 0), 0⟩], none) := by
  have h := (colinear_merges_to_nearest_endpoint
    ⟨(0, 0), (5, 0), 0⟩ ⟨(8, 0), (12, 0), 0⟩ rfl
    (by norm_num [spec_table, line_factory, Track.slope])).2.2.2
  rw [h]
  decide

/-- The parallel rows of the rule table are symmetric in the two lines. -/
theorem spec_table_parallel_symm (la lb : Line) :
    spec_table la lb = SpecOutcome.parallel ↔
      spec_table lb la = SpecOutcome.parallel := by
  cases la <;> cases lb <;> simp only [spec_table] <;>
    first
      | (split_ifs <;> simp_all)
      | simp_all

/-- The code's colinearity test is symmetric in the two lines. -/
theorem isColinear_symm (la lb : Line) : isColinear la lb = isColinear lb la := by
  cases la <;> cases lb <;> simp [isColinear, eq_comm]

/-- The colinear rows of the rule table are exactly the line pairs the code
treats as colinear. -/
theorem spec_table_colinear_iff (la lb : Line) :
    spec_table la lb = SpecOutcome.colinear ↔ isColinear la lb = true := by
  cases la <;> cases lb <;> simp only [spec_table, isColinear] <;>
    first
      | (split_ifs <;> simp_all)
      | simp_all

/-- A point row of the rule table read in both argument orders gives the
same exact rational coordinates. -/
theorem spec_table_point_symm {la lb : Line} {x y x2 y2 : ℚ}
    (h1 : spec_table la lb = SpecOutcome.point x y)
    (h2 : spec_table lb la = SpecOutcome.point x2 y2) :
    x2 = x ∧ y2 = y := by
  cases la with
  | horizontal ya =>
    cases lb with
    | horizontal yb =>
      simp only [spec_table] at h1
      split_ifs at h1
    | vertical xb =>
      simp only [spec_table] at h1 h2
      injection h1 with e1 e2; injection h2 with e3 e4
      exact ⟨e3.symm.trans e1, e4.symm.trans e2⟩
    | slanted m n =>
      simp only [spec_table] at h1 h2
      injection h1 with e1 e2; injection h2 with e3 e4
      exact ⟨e3.symm.trans e1, e4.symm.trans e2⟩
  | vertical xa =>
    cases lb with
    | horizontal yb =>
      simp only [spec_table] at h1 h2
      injection h1 with e1 e2; injection h2 with e3 e4
      exact ⟨e3.symm.trans e1, e4.symm.trans e2⟩
    | vertical xb =>
      simp only [spec_table] at h1
      split_ifs at h1
    | slanted m n =>
      simp only [spec_table] at h1 h2
      injection h1 with e1 e2; injection h2 with e3 e4
      exact ⟨e3.symm.trans e1, e4.symm.trans e2⟩
  | slanted m1 n1 =>
    cases lb with
    | horizontal yb =>
      simp only [spec_table] at h1 h2
      injection h1 with e1 e2; injection h2 with e3 e4
      exact ⟨e3.symm.trans e1, e4.symm.trans e2⟩
    | vertical xb =>
      simp only [spec_table] at h1 h2
      injection h1 with e1 e2; injection h2 with e3 e4
      exact ⟨e3.symm.trans e1, e4.symm.trans e2⟩
    | slanted m2 n2 =>
      simp only [spec_table] at h1 h2
      by_cases hm : m1 = m2
      · rw [if_pos hm] at h1
        split_ifs at h1
      · have hm2 : ¬ m2 = m1 := fun e => hm e.symm
        rw [if_neg hm] at h1
        rw [if_neg hm2] at h2
        injection h1 with e1 e2; injection h2 with e3 e4
        have hxeq : (n1 - n2) / (m2 - m1) = (n2 - n1) / (m1 - m2) := by
          rw [← neg_sub n2 n1, ← neg_sub m1 m2, neg_div_neg_eq]
        have hx : x2 = x := by rw [← e3, hxeq, e1]
        refine ⟨hx, ?_⟩
        have hmm : m1 - m2 ≠ 0 := sub_ne_zero.mpr hm
        have hxx : (m1 - m2) * ((n2 - n1) / (m1 - m2)) = n2 - n1 := by
          field_simp
        rw [← e4, hxeq, ← e2]
        linear_combination -hxx

/-- C8: swapping the argument order of the intersection computation yields
the same parallel outcome, the same colinearity outcome, and — whenever the
lines are not colinear — the very same truncated point. -/
theorem find_intersection_symmetric (a b : Track) :
    (find_intersection a b = Except.error Err.parallel ↔
      find_intersection b a = Except.error Err.parallel) ∧
    isColinear (line_factory a) (line_factory b) =
      isColinear (line_factory b) (line_factory a) ∧
    (isColinear (line_factory a) (line_factory b) = false →
      ∀ p, find_intersection a b = Except.ok p →
        find_intersection b a = Except.ok p) := by
  refine ⟨?_, isColinear_symm _ _, ?_⟩
  · rw [find_intersection_table a b, find_intersection_table b a]
    have hps := spec_table_parallel_symm (line_factory a) (line_factory b)
    cases h1 : spec_table (line_factory a) (line_factory b) <;>
      cases h2 : spec_table (line_factory b) (line_factory a) <;>
      rw [h1, h2] at hps <;> simp_all
  · intro hnc p hab
    rw [find_intersection_table a b] at hab
    rw [find_intersection_table b a]
    cases h1 : spec_table (line_factory a) (line_factory b) with
    | parallel =>
      rw [h1] at hab
      simp at hab
    | colinear =>
      have hcol := (spec_table_colinear_iff _ _).mp h1
      rw [hnc] at hcol
      cases hcol
    | point x y =>
      rw [h1] at hab
      simp only [Except.ok.injEq] at hab
      cases h2 : spec_table (line_factory b) (line_factory a) with
      | parallel =>
        have hpar := (spec_table_parallel_symm (line_factory b) (line_factory a)).mp h2
        rw [h1] at hpar
        cases hpar
      | colinear =>
        have hcol := (spec_table_colinear_iff (line_factory b) (line_factory a)).mp h2
        rw [← isColinear_symm] at hcol
        rw [hnc] at hcol
        cases hcol
      | point x2 y2 =>
        obtain ⟨hx, hy⟩ := spec_table_point_symm h1 h2
        rw [hx, hy]
        show Except.ok (ratTrunc x, ratTrunc y) = Except.ok p
        rw [hab]

theorem find_intersection_symmetric_witness :
    find_intersection ⟨(5, -5), (5, 5), 0⟩ ⟨(0, 0), (10, 0), 0⟩ =
      Except.ok ((5, 0) : Point) := by
  have l1 : line_factory ⟨(0, 0), (10, 0), 0⟩ = Line.horizontal 0 := by
    norm_num [line_factory, Track.slope]
  have l2 : line_factory ⟨(5, -5), (5, 5), 0⟩ = Line.vertical 5 := by
    norm_num [line_factory, Track.slope]
  have hab : find_intersection ⟨(0, 0), (10, 0), 0⟩ ⟨(5, -5), (5, 5), 0⟩ =
      Except.ok ((5, 0) : Point) := by
    have ht : spec_table (line_factory ⟨(0, 0), (10, 0), 0⟩)
        (line_factory ⟨(5, -5), (5, 5), 0⟩) =
          SpecOutcome.point ((5 : ℤ) : ℚ) ((0 : ℤ) : ℚ) := by
      rw [l1, l2]
      norm_num [spec_table]
    rw [table_point ht]
    norm_num [ratTrunc]
  exact (find_intersection_symmetric ⟨(0, 0), (10, 0), 0⟩ ⟨(5, -5), (5, 5), 0⟩).2.2
    (by rw [l1, l2]; norm_num [isColinear]) (5, 0) hab

/-- A `Slanted` line produced by the classifier always has a nonzero
slope (a zero slope would have been classified `Horizontal`). -/
theorem line_factory_slanted_slope_ne_zero {t : Track} {m n : ℚ}
    (h : line_factory t = Line.slanted m n) : m ≠ 0 := by
  unfold line_factory at h
  split at h
  · exact absurd h (by simp)
  · split_ifs at h with h0
    injection h with hm hn
    rw [← hm]
    exact h0

/-- C9: whenever `find_intersection` produces a proper intersection point
(the lines are not colinear), that integer point is the truncation — applied
once, at the very end — of an exact, untruncated coordinate pair lying on
both classified lines. -/
theorem point_truncated_once_at_end (a b : Track)
    (hnc : isColinear (line_factory a) (line_factory b) = false)
    (p : Point) (hp : find_intersection a b = Except.ok p) :
    ∃ x y : ℚ, onLine (line_factory a) x y ∧ onLine (line_factory b) x y ∧
      p = (ratTrunc x, ratTrunc y) := by
  rw [find_intersection_table a b] at hp
  cases ha : line_factory a with
  | horizontal ya =>
    cases hb : line_factory b with
    | horizontal yb =>
      rw [ha, hb] at hp hnc
      simp only [spec_table] at hp
      split_ifs at hp with h
      simp [isColinear, h] at hnc
    | vertical xb =>
      rw [ha, hb] at hp
      simp only [spec_table, Except.ok.injEq] at hp
      exact ⟨(xb : ℚ), (ya : ℚ), rfl, rfl, hp.symm⟩
    | slanted m n =>
      rw [ha, hb] at hp
      simp only [spec_table, Except.ok.injEq] at hp
      have hm := line_factory_slanted_slope_ne_zero hb
      refine ⟨((ya : ℚ) - n) / m, (ya : ℚ), rfl, ?_, hp.symm⟩
      show (ya : ℚ) = m * (((ya : ℚ) - n) / m) + n
      field_simp
  | vertical xa =>
    cases hb : line_factory b with
    | horizontal yb =>
      rw [ha, hb] at hp
      simp only [spec_table, Except.ok.injEq] at hp
      exact ⟨(xa : ℚ), (yb : ℚ), rfl, rfl, hp.symm⟩
    | vertical xb =>
      rw [ha, hb] at hp hnc
      simp only [spec_table] at hp
      split_ifs at hp with h
      simp [isColinear, h] at hnc
    | slanted m n =>
      rw [ha, hb] at hp
      simp only [spec_table, Except.ok.injEq] at hp
      exact ⟨(xa : ℚ), m * (xa : ℚ) + n, rfl, rfl, hp.symm⟩
  | slanted m1 n1 =>
    cases hb : line_factory b with
    | horizontal yb =>
      rw [ha, hb] at hp
      simp only [spec_table, Except.ok.injEq] at hp
      have hm := line_factory_slanted_slope_ne_zero ha
      refine ⟨((yb : ℚ) - n1) / m1, (yb : ℚ), ?_, rfl, hp.symm⟩
      show (yb : ℚ) = m1 * (((yb : ℚ) - n1) / m1) + n1
      field_simp
    | vertical xb =>
      rw [ha, hb] at hp
      simp only [spec_table, Except.ok.injEq] at hp
      exact ⟨(xb : ℚ), m1 * (xb : ℚ) + n1, rfl, rfl, hp.symm⟩
    | slanted m2 n2 =>
      rw [ha, hb] at hp hnc
      simp only [spec_table] at hp
      by_cases hm : m1 = m2
      · rw [if_pos hm] at hp
        split_ifs at hp with hn
        simp [isColinear, hm, hn] at hnc
      · rw [if_neg hm] at hp
        simp only [Except.ok.injEq] at hp
        have hmm : m1 - m2 ≠ 0 := sub_ne_zero.mpr hm
        refine ⟨(n2 - n1) / (m1 - m2), m1 * ((n2 - n1) / (m1 - m2)) + n1,
          rfl, ?_, hp.symm⟩
        show m1 * ((n2 - n1) / (m1 - m2)) + n1 =
          m2 * ((n2 - n1) / (m1 - m2)) + n2
        have hxx : (m1 - m2) * ((n2 - n1) / (m1 - m2)) = n2 - n1 := by
          field_simp
        linear_combination hxx

theorem point_truncated_once_at_end_witness :
    ∃ x y : ℚ,
      onLine (line_factory ⟨(0, 0), (10, 0), 0⟩) x y ∧
      onLine (line_factory ⟨(5, -5), (5, 5), 0⟩) x y ∧
      ((5, 0) : Point) = (ratTrunc x, ratTrunc y) := by
  have l1 : line_factory ⟨(0, 0), (10, 0), 0⟩ = Line.horizontal 0 := by
    norm_num [line_factory, Track.slope]
  have l2 : line_factory ⟨(5, -5), (5, 5), 0⟩ = Line.vertical 5 := by
    norm_num [line_factory, Track.slope]
  apply point_truncated_once_at_end ⟨(0, 0), (10, 0), 0⟩ ⟨(5, -5), (5, 5), 0⟩
  · rw [l1, l2]
    norm_num [isColinear]
  · have ht : spec_table (line_factory ⟨(0, 0), (10, 0), 0⟩)
        (line_factory ⟨(5, -5), (5, 5), 0⟩) =
          SpecOutcome.point ((5 : ℤ) : ℚ) ((0 : ℤ) : ℚ) := by
      rw [l1, l2]
      norm_num [spec_table]
    rw [table_point ht]
    norm_num [ratTrunc]
